import Mathlib

/-!
Shallow embedding of `hdf_compass/filesystem_model/model.py`: the filesystem
"data store" plugin of HDF Compass.  The backing operating-system filesystem
(the outbound interface: existence / is-directory / is-file checks, directory
listing, size query, whole-file read) is modelled as an abstract structure
`FS`; the Python path helpers `os.path.dirname`, `os.path.basename` and
`os.path.join` are embedded faithfully on character lists.
-/

namespace HdfCompass

/-- A byte string: the contents of a file, one natural number per byte. -/
abbrev Bytes := List Nat

/-- The backing filesystem, as seen through the OS primitives the source
calls: `op.exists`, `op.isdir`, `op.isfile`, `os.listdir`, `op.getsize`
and `open(...).read()`.  `listdir` and `readBytes` may fail with an
`OSError`/`IOError`, modelled as `Except Unit`. -/
structure FS where
  fsExists : String → Bool
  isdir : String → Bool
  isfile : String → Bool
  listdir : String → Except Unit (List String)
  getsize : String → Nat
  readBytes : String → Except Unit Bytes

/-! ### Path helpers (`posixpath.dirname` / `basename` / `join`) -/

/-- True iff every character is the separator, as in Python's
`head != sep * len(head)` test (vacuously true for the empty string). -/
def allSlash (l : List Char) : Bool := l.all (fun c => c = '/')

/-- Python `head.rstrip('/')`: remove all trailing separator characters. -/
def rstripSlash (l : List Char) : List Char :=
  (l.reverse.dropWhile (fun c => c = '/')).reverse

/-- Split a string at its LAST separator: `some (before, after)` where the
input is `before ++ '/' :: after` and `after` is separator-free; `none`
when no separator occurs.  This is `p.rfind('/')` of the Python source. -/
def splitAtLastSlash : List Char → Option (List Char × List Char)
  | [] => none
  | c :: cs =>
    match splitAtLastSlash cs with
    | some (h, t) => some (c :: h, t)
    | none => if c = '/' then some ([], cs) else none

/-- `posixpath.basename(p)`: everything after the last separator
(`p[p.rfind('/')+1:]`). -/
def basenameL (p : List Char) : List Char :=
  match splitAtLastSlash p with
  | none => p
  | some (_, t) => t

/-- `posixpath.dirname(p)`: `head = p[:p.rfind('/')+1]`; if `head` is
nonempty and not all separators, its trailing separators are stripped. -/
def dirnameL (p : List Char) : List Char :=
  match splitAtLastSlash p with
  | none => []
  | some (h, _) =>
    if allSlash (h ++ ['/']) then h ++ ['/'] else rstripSlash (h ++ ['/'])

/-- `posixpath.join(a, b)`: `b` if it is absolute; otherwise `a ++ b` when
`a` is empty or ends with the separator, else `a ++ "/" ++ b`. -/
def joinL (a b : List Char) : List Char :=
  if b.head? = some '/' then b
  else if a = [] ∨ a.getLast? = some '/' then a ++ b
  else a ++ '/' :: b

def basename (s : String) : String := ⟨basenameL s.data⟩

def dirname (s : String) : String := ⟨dirnameL s.data⟩

def join (a b : String) : String := ⟨joinL a.data b.data⟩

/-! ### Python / numpy indexing primitives -/

/-- Python sequence indexing `xs[i]` for an integer index: a negative index
is offset by the length; out of range raises `IndexError` (`Except.error`). -/
def pyIndex {α : Type} (xs : List α) (i : Int) : Except Unit α :=
  let j := if i < 0 then i + xs.length else i
  if h : 0 ≤ j ∧ j.toNat < xs.length then .ok (xs.get ⟨j.toNat, h.2⟩)
  else .error ()

/-- An index argument accepted by a 1-d numpy array: a single integer, or a
slice with optional start and stop. -/
inductive NpIdx where
  | idx (i : Int)
  | slice (start stop : Option Int)

/-- The result of a 1-d numpy array access: a scalar for an integer index,
a sub-array for a slice. -/
inductive NpRes where
  | scalar (b : Nat)
  | arr (bs : Bytes)
deriving DecidableEq

/-- Normalize one slice bound against length `n` (Python `slice.indices`
with step 1): a negative bound is offset by `n` and clamped at 0; a
non-negative bound is clamped at `n`. -/
def sliceBound (n : Nat) (dflt : Nat) : Option Int → Nat
  | none => dflt
  | some v => if v < 0 then (v + n).toNat else min v.toNat n

/-- Python slice `xs[s:e]` with the bounds normalized by `sliceBound`. -/
def applySlice (xs : Bytes) (start stop : Option Int) : Bytes :=
  let s := sliceBound xs.length 0 start
  let e := sliceBound xs.length xs.length stop
  (xs.take e).drop s

/-- `data[args]` on a 1-d numpy byte array: integer indexing may raise
`IndexError`; slicing clamps and never fails. -/
def applyIdx (xs : Bytes) : NpIdx → Except Unit NpRes
  | .idx i => (pyIndex xs i).map .scalar
  | .slice s e => .ok (.arr (applySlice xs s e))

/-! ### The `Filesystem` store -/

/-- `class Filesystem(compass_model.Store)`: holds the accepted url and the
`_valid` lifecycle flag, nothing else. -/
structure Filesystem where
  url : String
  valid : Bool
deriving DecidableEq

/-- `Filesystem.can_handle(url)`: true iff the url is exactly the literal
`"file://localhost"`. -/
def Filesystem.can_handle (url : String) : Bool := url = "file://localhost"

/-- `Filesystem.__init__(url)`: raises `ValueError` when `can_handle` is
false; otherwise stores the url and sets `_valid = True`. -/
def Filesystem.init (url : String) : Except Unit Filesystem :=
  if Filesystem.can_handle url then .ok ⟨url, true⟩ else .error ()

/-- `Filesystem.display_name`: the constant `"Local file system"`. -/
def Filesystem.display_name (_ : Filesystem) : String := "Local file system"

/-- `Filesystem.close()`: sets `_valid = False` and touches nothing else. -/
def Filesystem.close (s : Filesystem) : Filesystem := { s with valid := false }

/-- `Filesystem.__contains__(key)`: `op.exists(key)` — a pure consultation
of the backing filesystem that never reads the store's own state. -/
def Filesystem.containsKey (fs : FS) (_ : Filesystem) (key : String) : Bool :=
  fs.fsExists key

/-! ### Nodes -/

/-- `class Directory(compass_model.Container)`: keeps its owning store, its
key and the name list captured once at construction. -/
structure Directory where
  store : Filesystem
  key : String
  names : List String

/-- `Directory.can_handle(store, key)`: `op.isdir(key)`. -/
def Directory.can_handle (fs : FS) (key : String) : Bool := fs.isdir key

/-- `Directory.__init__(store, key)`: captures `os.listdir(key)` once; an
`OSError` (permissions, etc.) degrades to the empty name list and is never
surfaced. -/
def Directory.init (fs : FS) (store : Filesystem) (key : String) : Directory :=
  ⟨store, key,
    match fs.listdir key with
    | .ok ns => ns
    | .error _ => []⟩

/-- `Directory.display_name`: `op.basename(key)`, or `"/"` when that
basename is empty. -/
def Directory.display_name (d : Directory) : String :=
  let bn := basename d.key
  if bn.length = 0 then "/" else bn

/-- `Directory.__len__`: the number of captured names. -/
def Directory.size (d : Directory) : Nat := d.names.length

/-- `class File(compass_model.Array)`: keeps only its owning store and its
key — no size or contents are cached at construction. -/
structure FileNode where
  store : Filesystem
  key : String

/-- `File.can_handle(store, key)`: `op.isfile(key)`. -/
def FileNode.can_handle (fs : FS) (key : String) : Bool := fs.isfile key

/-- `File.__init__(store, key)`. -/
def FileNode.init (store : Filesystem) (key : String) : FileNode := ⟨store, key⟩

/-- `File.display_name`: `op.basename(key)`. -/
def FileNode.display_name (f : FileNode) : String := basename f.key

/-- `File.shape`: the 1-tuple `(op.getsize(key),)`, computed against the
current filesystem on every query. -/
def FileNode.shape (fs : FS) (f : FileNode) : List Nat := [fs.getsize f.key]

/-- Element type descriptors; `u1` is numpy's unsigned 8-bit integer. -/
inductive Dtype where
  | u1
deriving DecidableEq

/-- `File.dtype`: `np.dtype('u1')`, the unsigned 8-bit integer type. -/
def FileNode.dtype (_ : FileNode) : Dtype := .u1

/-- Modelled from the spec: `compass_model.Array.__len__` is not under
`src/`; per the spec an array leaf's length is its first shape dimension
(`shape -> (size_in_bytes,)`), so `len(file)` is the file's reported size. -/
def FileNode.len (fs : FS) (f : FileNode) : Nat := (FileNode.shape fs f).headD 0

/-- `File.__getitem__(args)`: read the whole file into a byte array; on
`OSError`/`IOError` substitute `np.zeros((len(self),))`; then apply `args`
to the buffer. -/
def FileNode.getitem (fs : FS) (f : FileNode) (args : NpIdx) : Except Unit NpRes :=
  let data : Bytes :=
    match fs.readBytes f.key with
    | .ok bs => bs
    | .error _ => List.replicate (FileNode.len fs f) 0
  applyIdx data args

/-- A resolved node: the registered variants are `Directory` and `File`. -/
inductive Node where
  | dir (d : Directory)
  | file (f : FileNode)

/-- Failures of key resolution and container indexing. -/
inductive LookupErr where
  | storeClosed
  | noMatch
  | indexError
deriving DecidableEq

/-- Modelled from the spec: `compass_model.Store.__getitem__` (resolution
through the node-type registry) is not under `src/`.  Per the spec,
resolution in the `Closed` state fails with `StoreClosed`; otherwise each
registered node type's `can_handle(store, key)` is evaluated in order
(directory check before file check) and the first match is constructed;
when none matches the resolution fails. -/
def Filesystem.resolve (fs : FS) (s : Filesystem) (key : String) :
    Except LookupErr Node :=
  if s.valid = false then .error .storeClosed
  else if Directory.can_handle fs key then .ok (.dir (Directory.init fs s key))
  else if FileNode.can_handle fs key then .ok (.file (FileNode.init s key))
  else .error .noMatch

/-- `Filesystem.get_parent(key)`: `None` at the root key, otherwise
`self[op.dirname(key)]`. -/
def Filesystem.get_parent (fs : FS) (s : Filesystem) (key : String) :
    Option (Except LookupErr Node) :=
  if key = "/" then none else some (Filesystem.resolve fs s (dirname key))

/-- `Filesystem.root`: `self['/']`. -/
def Filesystem.root (fs : FS) (s : Filesystem) : Except LookupErr Node :=
  Filesystem.resolve fs s "/"

/-- `Directory.__iter__`: one `self._store[op.join(self.key, name)]` per
captured name, in capture order. -/
def Directory.iter (fs : FS) (d : Directory) : List (Except LookupErr Node) :=
  d.names.map (fun name => Filesystem.resolve fs d.store (join d.key name))

/-- `Directory.__getitem__(idx)`: `self._store[op.join(self.key,
self._names[idx])]`, where `self._names[idx]` follows Python list indexing
(negative offsets allowed, `IndexError` when out of range). -/
def Directory.getitem (fs : FS) (d : Directory) (idx : Int) :
    Except LookupErr Node :=
  match pyIndex d.names idx with
  | .error _ => .error .indexError
  | .ok name => Filesystem.resolve fs d.store (join d.key name)

/-! ### Concrete environments used by the witnesses -/

/-- A filesystem on which every path exists as a directory, every listing
and every read fail with an I/O error, and every size query reports 4
bytes: the unreadable environment the witnesses evaluate against. -/
def fsDenied : FS :=
  ⟨fun _ => true, fun _ => true, fun _ => false,
   fun _ => .error (), fun _ => 4, fun _ => .error ()⟩

/-! ### Theorems -/

/-- C10: `close()` mutates only the `valid` flag — membership
(`key in store`), `url` and `display_name` are unchanged by `close()`,
and membership is decided purely by existence of the path in the backing
filesystem, never consulting `valid`. -/
theorem close_frame (fs : FS) (s : Filesystem) (key : String) :
    Filesystem.containsKey fs (Filesystem.close s) key
        = Filesystem.containsKey fs s key ∧
    Filesystem.containsKey fs s key = fs.fsExists key ∧
    (Filesystem.close s).url = s.url ∧
    (Filesystem.close s).display_name = s.display_name :=
  ⟨rfl, rfl, rfl, rfl⟩

/-- C3: `close()` sets `valid` to false, the closed state is terminal
(closing again leaves the store unchanged, and no operation restores
`valid`), and every resolution on a closed store fails with `StoreClosed`
for every key. -/
theorem close_invalidates_resolution (fs : FS) (s : Filesystem) (key : String) :
    (Filesystem.close s).valid = false ∧
    Filesystem.close (Filesystem.close s) = Filesystem.close s ∧
    Filesystem.resolve fs (Filesystem.close s) key = .error .storeClosed :=
  ⟨rfl, rfl, rfl⟩

/-- C7: a File node's `shape` is the 1-tuple holding the backing file's
byte length as reported by the filesystem at query time — the node caches
nothing at construction, so two queries against different filesystem
states each report that state's size — and `dtype` is numpy's unsigned
8-bit integer type. -/
theorem file_shape_fresh_dtype (store : Filesystem) (key : String) (fs fs2 : FS) :
    FileNode.shape fs (FileNode.init store key) = [fs.getsize key] ∧
    FileNode.shape fs2 (FileNode.init store key) = [fs2.getsize key] ∧
    FileNode.dtype (FileNode.init store key) = Dtype.u1 :=
  ⟨rfl, rfl, rfl⟩

/-- C5: `can_handle` is true exactly on the literal `"file://localhost"`,
construction fails with `ValueError` exactly when `can_handle` is false,
and a successfully constructed store carries the given url with
`valid = true`. -/
theorem can_handle_exact_and_construct (u : String) :
    (Filesystem.can_handle u = true ↔ u = "file://localhost") ∧
    Filesystem.init u =
      (if Filesystem.can_handle u then .ok ⟨u, true⟩ else .error ()) ∧
    ∀ s, Filesystem.init u = .ok s → s.url = u ∧ s.valid = true := by
  refine ⟨by simp [Filesystem.can_handle], rfl, ?_⟩
  intro s h
  unfold Filesystem.init at h
  by_cases hc : Filesystem.can_handle u
  · rw [if_pos hc] at h
    cases h
    exact ⟨rfl, rfl⟩
  · rw [if_neg hc] at h
    cases h

/-- Witness for C5 at the accepted literal, together with a rejection of a
proper extension of it (the match is exact, not a prefix match). -/
theorem can_handle_exact_and_construct_witness :
    Filesystem.can_handle "file://localhost" = true ∧
    Filesystem.can_handle "file://localhost/x" = false ∧
    Filesystem.init "file://localhost" = .ok ⟨"file://localhost", true⟩ ∧
    (⟨"file://localhost", true⟩ : Filesystem).url = "file://localhost" ∧
    (⟨"file://localhost", true⟩ : Filesystem).valid = true := by
  have h := (can_handle_exact_and_construct "file://localhost").2.2
    ⟨"file://localhost", true⟩ (by rfl)
  exact ⟨by decide, by decide, by rfl, h.1, h.2⟩

/-- C2: when the directory listing fails with an `OSError`, construction
still succeeds with an empty captured name list, so the directory has
length 0 and empty iteration (against any later filesystem state). -/
theorem dir_listing_error_empty (fs fs2 : FS) (store : Filesystem)
    (key : String) (e : Unit) (h : fs.listdir key = .error e) :
    (Directory.init fs store key).names = [] ∧
    Directory.size (Directory.init fs store key) = 0 ∧
    Directory.iter fs2 (Directory.init fs store key) = [] := by
  simp [Directory.init, h, Directory.size, Directory.iter]

/-- Witness for C2: a concrete unlistable directory is an empty container. -/
theorem dir_listing_error_empty_witness :
    Directory.size (Directory.init fsDenied ⟨"file://localhost", true⟩ "/d") = 0 ∧
    Directory.iter fsDenied (Directory.init fsDenied ⟨"file://localhost", true⟩ "/d") = [] := by
  have h := dir_listing_error_empty fsDenied fsDenied
    ⟨"file://localhost", true⟩ "/d" () rfl
  exact ⟨h.2.1, h.2.2⟩

/-- C1: when opening or reading the backing file fails with an I/O error,
`file[args]` does not propagate the failure: it applies the same index or
slice to a zero-filled buffer whose length is the file's reported size. -/
theorem file_read_error_zero_fill (fs : FS) (f : FileNode) (a : NpIdx)
    (e : Unit) (h : fs.readBytes f.key = .error e) :
    FileNode.getitem fs f a
      = applyIdx (List.replicate (fs.getsize f.key) 0) a := by
  simp [FileNode.getitem, h, FileNode.len, FileNode.shape]

/-- Witness for C1: a full-slice read of a concrete unreadable 4-byte file
yields four zero bytes. -/
theorem file_read_error_zero_fill_witness :
    FileNode.getitem fsDenied ⟨⟨"file://localhost", true⟩, "/f"⟩ (.slice none none)
      = .ok (.arr [0, 0, 0, 0]) := by
  have h := file_read_error_zero_fill fsDenied
    ⟨⟨"file://localhost", true⟩, "/f"⟩ (.slice none none) () rfl
  rw [h]
  rfl

/-- A non-negative index within bounds selects the corresponding element. -/
theorem pyIndex_ofNat {α : Type} (xs : List α) (i : Nat) (hi : i < xs.length) :
    pyIndex xs (i : Int) = .ok (xs.get ⟨i, hi⟩) := by
  have h0 : ¬ ((i : Int) < 0) := by omega
  have h1 : (0 : Int) ≤ (i : Int) ∧ ((i : Int)).toNat < xs.length := by
    constructor
    · omega
    · simpa using hi
  simp only [pyIndex, if_neg h0]
  rw [dif_pos h1]
  simp

/-- Python indexing fails exactly on indices at or beyond the length, or
strictly below the negated length. -/
theorem pyIndex_eq_error_iff {α : Type} (xs : List α) (i : Int) :
    pyIndex xs i = .error () ↔
      ((xs.length : Int) ≤ i ∨ i < -(xs.length : Int)) := by
  unfold pyIndex
  by_cases hneg : i < 0
  · simp only [if_pos hneg]
    by_cases hc : (0 : Int) ≤ i + (xs.length : Int) ∧
        (i + (xs.length : Int)).toNat < xs.length
    · rw [dif_pos hc]
      simp only [reduceCtorEq, false_iff]
      omega
    · rw [dif_neg hc]
      simp only [true_iff]
      omega
  · simp only [if_neg hneg]
    by_cases hc : (0 : Int) ≤ i ∧ i.toNat < xs.length
    · rw [dif_pos hc]
      simp only [reduceCtorEq, false_iff]
      omega
    · rw [dif_neg hc]
      simp only [true_iff]
      omega

/-- Index `-1` on a nonempty list selects the last element. -/
theorem pyIndex_neg_one {α : Type} (xs : List α) (h : xs ≠ []) :
    pyIndex xs (-1) = .ok (xs.getLast h) := by
  have hlen : 0 < xs.length := List.length_pos.mpr h
  have h1 : (0 : Int) ≤ -1 + (xs.length : Int) ∧
      ((-1 : Int) + (xs.length : Int)).toNat < xs.length := by omega
  have h2 : ((-1 : Int) + (xs.length : Int)).toNat = xs.length - 1 := by omega
  simp only [pyIndex, if_pos (by omega : (-1 : Int) < 0)]
  rw [dif_pos h1]
  congr 1
  rw [List.getLast_eq_get]
  congr 1
  apply Fin.ext
  exact h2

/-- Resolution never reports an index failure: its failures are
`storeClosed` and `noMatch` only. -/
theorem resolve_ne_indexError (fs : FS) (s : Filesystem) (key : String) :
    Filesystem.resolve fs s key ≠ .error .indexError := by
  unfold Filesystem.resolve
  split
  · simp
  split
  · simp
  split
  · simp
  · simp

/-- C4: iterating a directory produces exactly one output per captured
name — against every filesystem state, since the captured list is reused
rather than re-listed — and positional indexing at each `i` below the
length returns the node for the same child key as the `i`-th iteration
output: the join of the directory's key with the `i`-th captured name,
resolved through the owning store. -/
theorem dir_len_iter_getitem (fs : FS) (d : Directory) :
    (Directory.iter fs d).length = Directory.size d ∧
    (∀ fs2 : FS, (Directory.iter fs2 d).length = Directory.size d) ∧
    ∀ i : Nat, (hi : i < Directory.size d) →
      (Directory.iter fs d)[i]? =
        some (Filesystem.resolve fs d.store (join d.key (d.names.get ⟨i, hi⟩))) ∧
      Directory.getitem fs d (i : Int) =
        Filesystem.resolve fs d.store (join d.key (d.names.get ⟨i, hi⟩)) := by
  refine ⟨by simp [Directory.iter, Directory.size],
          fun fs2 => by simp [Directory.iter, Directory.size],
          fun i hi => ⟨?_, ?_⟩⟩
  · rw [Directory.iter, List.getElem?_map,
      List.getElem?_eq_getElem (by simpa [Directory.size] using hi)]
    simp
  · rw [Directory.getitem, pyIndex_ofNat d.names i hi]

/-- Witness for C4 on a concrete two-child directory: length agreement and
the indexing/iteration match at index 0. -/
theorem dir_len_iter_getitem_witness :
    (Directory.iter fsDenied ⟨⟨"file://localhost", true⟩, "/d", ["a", "b"]⟩).length = 2 ∧
    Directory.getitem fsDenied ⟨⟨"file://localhost", true⟩, "/d", ["a", "b"]⟩ 0 =
      Filesystem.resolve fsDenied ⟨"file://localhost", true⟩ (join "/d" "a") := by
  have h := dir_len_iter_getitem fsDenied
    ⟨⟨"file://localhost", true⟩, "/d", ["a", "b"]⟩
  exact ⟨h.1, (h.2.2 0 (by decide)).2⟩

/-- C9: directory indexing raises `IndexError` exactly when the integer
index is at or beyond the length or strictly below its negation; a
negative in-range index addresses children from the end, `d[-1]` being the
last captured child. -/
theorem dir_getitem_index_range (fs : FS) (d : Directory) (i : Int) :
    (Directory.getitem fs d i = .error .indexError ↔
      ((Directory.size d : Int) ≤ i ∨ i < -(Directory.size d : Int))) ∧
    ∀ h : d.names ≠ [],
      Directory.getitem fs d (-1)
        = Filesystem.resolve fs d.store (join d.key (d.names.getLast h)) := by
  constructor
  · have key : Directory.getitem fs d i = .error .indexError ↔
        pyIndex d.names i = .error () := by
      unfold Directory.getitem
      rcases he : pyIndex d.names i with e | name
      · cases e
        simp
      · simp [resolve_ne_indexError fs d.store (join d.key name)]
    exact key.trans (pyIndex_eq_error_iff d.names i)
  · intro h
    rw [Directory.getitem, pyIndex_neg_one d.names h]

/-- Witness for C9 on a concrete two-child directory: index 2 and index -3
are out of range, index -1 resolves the last child. -/
theorem dir_getitem_index_range_witness :
    (Directory.getitem fsDenied ⟨⟨"file://localhost", true⟩, "/d", ["a", "b"]⟩ 2
      = .error .indexError) ∧
    (Directory.getitem fsDenied ⟨⟨"file://localhost", true⟩, "/d", ["a", "b"]⟩ (-3)
      = .error .indexError) ∧
    Directory.getitem fsDenied ⟨⟨"file://localhost", true⟩, "/d", ["a", "b"]⟩ (-1)
      = Filesystem.resolve fsDenied ⟨"file://localhost", true⟩ (join "/d" "b") := by
  refine ⟨((dir_getitem_index_range fsDenied
      ⟨⟨"file://localhost", true⟩, "/d", ["a", "b"]⟩ 2).1).mpr (by decide),
    ((dir_getitem_index_range fsDenied
      ⟨⟨"file://localhost", true⟩, "/d", ["a", "b"]⟩ (-3)).1).mpr (by decide),
    ?_⟩
  have h := (dir_getitem_index_range fsDenied
    ⟨⟨"file://localhost", true⟩, "/d", ["a", "b"]⟩ 0).2 (by decide)
  simpa using h

/-- C8: a directory's display name is the basename of its key, the node
for the root key `"/"` displaying as `"/"` (the basename of `"/"` being
empty), and the display name is never the empty string. -/
theorem dir_display_name_basename (d : Directory) :
    (d.key = "/" → Directory.display_name d = "/") ∧
    (basename d.key ≠ "" → Directory.display_name d = basename d.key) ∧
    Directory.display_name d ≠ "" := by
  have hlen : ∀ s : String, s.length = 0 → s = "" := by
    intro s h0
    exact String.ext (List.length_eq_zero.mp h0)
  refine ⟨?_, ?_, ?_⟩
  · intro h
    unfold Directory.display_name
    rw [h]
    rfl
  · intro hbn
    unfold Directory.display_name
    rw [if_neg (fun h0 => hbn (hlen _ h0))]
  · unfold Directory.display_name
    by_cases h0 : (basename d.key).length = 0
    · rw [if_pos h0]
      decide
    · rw [if_neg h0]
      intro he
      exact h0 (by rw [he]; rfl)

/-- Witness for C8: the root directory node displays as `"/"`, a nested
directory as the basename of its key. -/
theorem dir_display_name_basename_witness :
    Directory.display_name ⟨⟨"file://localhost", true⟩, "/", []⟩ = "/" ∧
    Directory.display_name ⟨⟨"file://localhost", true⟩, "/a/b", []⟩ = "b" := by
  constructor
  · exact (dir_display_name_basename ⟨⟨"file://localhost", true⟩, "/", []⟩).1 rfl
  · have h := (dir_display_name_basename
      ⟨⟨"file://localhost", true⟩, "/a/b", []⟩).2.1 (by decide)
    rw [h]
    decide

/-! ### Keys built from path components, for the parent-lookup claim -/

/-- The key addressing the component chain `[c1, ..., ck]` from the root:
the character list of `"/c1/.../ck"`.  These are exactly the keys reached
from the root by repeated `op.join` with listed child names. -/
def keyOf : List (List Char) → List Char
  | [] => []
  | c :: cs => '/' :: (c ++ keyOf cs)

/-- Well-formed component chains: at least one component, each nonempty
and separator-free (as directory-entry names are). -/
def goodComps (comps : List (List Char)) : Prop :=
  comps ≠ [] ∧ ∀ c ∈ comps, c ≠ [] ∧ '/' ∉ c

instance : DecidablePred goodComps := fun comps => by
  unfold goodComps
  infer_instance

/-- Per the spec's words: the path obtained by removing the last path
component of the key — the root `"/"` once no component remains. -/
def specParentKey (comps : List (List Char)) : List Char :=
  if comps.dropLast = [] then ['/'] else keyOf comps.dropLast

/-- A separator-free string has no split point. -/
theorem splitAtLastSlash_eq_none (p : List Char) (h : '/' ∉ p) :
    splitAtLastSlash p = none := by
  induction p with
  | nil => rfl
  | cons c cs ih =>
    have hc : c ≠ '/' := by
      intro hc2
      rw [hc2] at h
      exact h (List.mem_cons_self '/' cs)
    have hcs : '/' ∉ cs := fun hm => h (List.mem_cons_of_mem c hm)
    simp only [splitAtLastSlash]
    rw [ih hcs]
    simp [hc]

/-- Splitting at the last separator of `xs ++ '/' :: ys` with `ys`
separator-free returns `(xs, ys)`. -/
theorem splitAtLastSlash_append (xs ys : List Char) (h : '/' ∉ ys) :
    splitAtLastSlash (xs ++ '/' :: ys) = some (xs, ys) := by
  induction xs with
  | nil =>
    simp only [List.nil_append, splitAtLastSlash]
    rw [splitAtLastSlash_eq_none ys h]
    simp
  | cons x xs ih =>
    simp only [List.cons_append, splitAtLastSlash, List.append_eq]
    rw [ih]

/-- `keyOf` of a chain extended by one component appends `'/'` and it. -/
theorem keyOf_concat (xs : List (List Char)) (y : List Char) :
    keyOf (xs ++ [y]) = keyOf xs ++ '/' :: y := by
  induction xs with
  | nil => simp [keyOf]
  | cons x xs ih => simp [keyOf, ih]

/-- Stripping trailing separators ignores a trailing separator. -/
theorem rstripSlash_append_slash (xs : List Char) :
    rstripSlash (xs ++ ['/']) = rstripSlash xs := by
  unfold rstripSlash
  rw [List.reverse_append]
  rfl

/-- Stripping trailing separators from a string ending in a
non-separator character is the identity. -/
theorem rstripSlash_append_ne (xs : List Char) (c : Char) (h : c ≠ '/') :
    rstripSlash (xs ++ [c]) = xs ++ [c] := by
  unfold rstripSlash
  rw [List.reverse_append]
  simp [List.dropWhile, h]

/-- A well-formed key ends in a non-separator character. -/
theorem keyOf_ends_ne_slash (comps : List (List Char)) (h : goodComps comps) :
    ∃ zs c, keyOf comps = zs ++ [c] ∧ c ≠ '/' := by
  induction comps using List.reverseRecOn with
  | nil => exact absurd rfl h.1
  | append_singleton xs x _ =>
    have hx : x ≠ [] ∧ '/' ∉ x :=
      h.2 x (List.mem_append_right xs (List.mem_singleton.mpr rfl))
    rw [keyOf_concat]
    cases x using List.reverseRecOn with
    | nil => exact absurd rfl hx.1
    | append_singleton as a =>
      have ha : a ≠ '/' := by
        intro hha
        rw [hha] at hx
        exact hx.2 (List.mem_append_right as (List.mem_singleton.mpr rfl))
      exact ⟨keyOf xs ++ '/' :: as, a, by simp, ha⟩

/-- A well-formed key followed by a separator is not all separators. -/
theorem allSlash_keyOf (comps : List (List Char)) (h : goodComps comps) :
    allSlash (keyOf comps ++ ['/']) = false := by
  obtain ⟨hne, hall⟩ := h
  rcases comps with _ | ⟨c, cs⟩
  · exact absurd rfl hne
  have hc : c ≠ [] ∧ '/' ∉ c := hall c (List.mem_cons_self c cs)
  rcases c with _ | ⟨a, as⟩
  · exact absurd rfl hc.1
  have ha : a ≠ '/' := by
    intro hha
    rw [hha] at hc
    exact hc.2 (List.mem_cons_self '/' as)
  simp [allSlash, keyOf, ha]

/-- A well-formed key is never the bare root. -/
theorem keyOf_ne_root (comps : List (List Char)) (h : goodComps comps) :
    keyOf comps ≠ ['/'] := by
  obtain ⟨hne, hall⟩ := h
  rcases comps with _ | ⟨c, cs⟩
  · exact absurd rfl hne
  have hc : c ≠ [] := (hall c (List.mem_cons_self c cs)).1
  rcases c with _ | ⟨a, as⟩
  · exact absurd rfl hc
  simp [keyOf]

/-- Unfolding `dirnameL` along a known split point. -/
theorem dirnameL_eq_of_split (p hd tl : List Char)
    (hs : splitAtLastSlash p = some (hd, tl)) :
    dirnameL p = if allSlash (hd ++ ['/']) then hd ++ ['/']
      else rstripSlash (hd ++ ['/']) := by
  unfold dirnameL
  rw [hs]

/-- `dirname` on a well-formed key removes exactly the last component. -/
theorem dirnameL_keyOf (comps : List (List Char)) (h : goodComps comps) :
    dirnameL (keyOf comps) = specParentKey comps := by
  induction comps using List.reverseRecOn with
  | nil => exact absurd rfl h.1
  | append_singleton xs x _ =>
    have hx : x ≠ [] ∧ '/' ∉ x :=
      h.2 x (List.mem_append_right xs (List.mem_singleton.mpr rfl))
    rw [keyOf_concat,
      dirnameL_eq_of_split (keyOf xs ++ '/' :: x) (keyOf xs) x
        (splitAtLastSlash_append (keyOf xs) x hx.2)]
    rcases xs with _ | ⟨c, cs⟩
    · simp [allSlash, keyOf, specParentKey]
    · have hgood : goodComps (c :: cs) :=
        ⟨List.cons_ne_nil c cs, fun y hy => h.2 y (List.mem_append_left _ hy)⟩
      rw [if_neg (by rw [allSlash_keyOf (c :: cs) hgood]; exact Bool.false_ne_true)]
      obtain ⟨zs, ch, hk, hch⟩ := keyOf_ends_ne_slash (c :: cs) hgood
      rw [rstripSlash_append_slash, hk, rstripSlash_append_ne zs ch hch, ← hk]
      unfold specParentKey
      rw [List.dropLast_concat, if_neg (List.cons_ne_nil c cs)]

/-- C6: `get_parent` returns `None` exactly at the root key, and on every
well-formed non-root key it resolves, through the store, the path obtained
by removing the key's last path component. -/
theorem get_parent_removes_last_component (fs : FS) (s : Filesystem)
    (comps : List (List Char)) (h : goodComps comps) :
    Filesystem.get_parent fs s "/" = none ∧
    Filesystem.get_parent fs s ⟨keyOf comps⟩
      = some (Filesystem.resolve fs s ⟨specParentKey comps⟩) := by
  constructor
  · rfl
  · unfold Filesystem.get_parent
    rw [if_neg (fun heq => keyOf_ne_root comps h (congrArg String.data heq))]
    unfold dirname
    rw [show (String.mk (keyOf comps)).data = keyOf comps from rfl,
      dirnameL_keyOf comps h]

/-- Witness for C6 at the concrete key `"/a/b"`, whose parent path is
`"/a"`. -/
theorem get_parent_removes_last_component_witness :
    String.mk (keyOf [['a'], ['b']]) = "/a/b" ∧
    String.mk (specParentKey [['a'], ['b']]) = "/a" ∧
    Filesystem.get_parent fsDenied ⟨"file://localhost", true⟩ "/" = none ∧
    Filesystem.get_parent fsDenied ⟨"file://localhost", true⟩ ⟨keyOf [['a'], ['b']]⟩
      = some (Filesystem.resolve fsDenied ⟨"file://localhost", true⟩
          ⟨specParentKey [['a'], ['b']]⟩) := by
  have h := get_parent_removes_last_component fsDenied
    ⟨"file://localhost", true⟩ [['a'], ['b']] (by decide)
  exact ⟨by decide, by decide, h.1, h.2⟩

end HdfCompass
